import Mathlib

set_option maxHeartbeats 1000000

/-!
Verification of the GCLI Requisition/Assignment engine.

The repository ships the UI layer (output_terminal.js, tooltip.js) and a
test (testMenu.js); the parsing core they consume (cli.js, the tokenizer
and the type-converter registry) is referenced but not included, so the
core is modelled here from the specification, while the OutputTerminal
view-allocation logic is embedded directly from output_terminal.js.
-/

/-- Modelled from the spec: the three-valued status of a Conversion
(spec section 3) in the missing conversion core. -/
inductive Status where
  | VALID
  | INCOMPLETE
  | ERROR
deriving DecidableEq, Repr

/-- Modelled from the spec: a raw token produced by the missing Argument
Tokenizer. `pre` holds the leading whitespace (the spec calls it the
argument's prefix), `text` the token characters, `suffix` any trailing
characters owned by this token. -/
structure Argument where
  pre : List Char
  text : List Char
  suffix : List Char
deriving DecidableEq, Repr

def isSpace (c : Char) : Bool := c == ' '

/-- Modelled from the spec: read one bare (unquoted) token: the maximal
run of non-whitespace characters. Returns the token and the rest. -/
def readBare : List Char → List Char × List Char
  | [] => ([], [])
  | c :: cs =>
    if isSpace c then ([], c :: cs)
    else (c :: (readBare cs).1, (readBare cs).2)

/-- Modelled from the spec: read up to and including the closing double
quote; a missing closing quote consumes the rest of the input (the
trailing-incomplete-quote token of spec section 4.2). -/
def splitQuoted : List Char → List Char × List Char
  | [] => ([], [])
  | c :: cs =>
    if c == '"' then ([c], cs)
    else (c :: (splitQuoted cs).1, (splitQuoted cs).2)

/-- Modelled from the spec: read one token of the missing tokenizer: a
quoted substring is preserved as a single token, otherwise a bare token. -/
def readToken : List Char → List Char × List Char
  | [] => ([], [])
  | c :: cs =>
    if c == '"' then (c :: (splitQuoted cs).1, (splitQuoted cs).2)
    else (c :: (readBare cs).1, (readBare cs).2)

theorem readBare_append : ∀ l : List Char, (readBare l).1 ++ (readBare l).2 = l := by
  intro l
  induction l with
  | nil => rfl
  | cons c cs ih =>
    cases h : isSpace c <;> simp [readBare, h, ih]

theorem splitQuoted_append : ∀ l : List Char, (splitQuoted l).1 ++ (splitQuoted l).2 = l := by
  intro l
  induction l with
  | nil => rfl
  | cons c cs ih =>
    cases h : c == '"' <;> simp [splitQuoted, h, ih]

theorem readToken_append : ∀ l : List Char, (readToken l).1 ++ (readToken l).2 = l := by
  intro l
  cases l with
  | nil => rfl
  | cons c cs =>
    cases h : c == '"' <;>
      simp [readToken, h, readBare_append, splitQuoted_append]

theorem readToken_snd_length :
    ∀ (c : Char) (cs : List Char), ((readToken (c :: cs)).2).length ≤ cs.length := by
  intro c cs
  have h := readToken_append (c :: cs)
  have h2 : (readToken (c :: cs)).1.length + (readToken (c :: cs)).2.length = cs.length + 1 := by
    have := congrArg List.length h
    simpa using this
  have h3 : 1 ≤ (readToken (c :: cs)).1.length := by
    cases hq : c == '"' <;> simp [readToken, hq]
  omega

/-- Modelled from the spec: one fuelled pass of the missing Argument
Tokenizer (spec section 4.2): scan left to right, split on whitespace,
keep quoted substrings as one token; each token records its leading
whitespace as its prefix so that source offsets are preserved. Each step
consumes at least one character, so fuel larger than the input length is
always enough. -/
def tokenizeFuel : Nat → List Char → List Argument
  | 0, _ => []
  | n + 1, l =>
    match l.dropWhile isSpace with
    | [] => if l = [] then [] else [⟨l, [], []⟩]
    | c :: cs =>
      ⟨l.takeWhile isSpace, (readToken (c :: cs)).1, []⟩ ::
        tokenizeFuel n ((readToken (c :: cs)).2)

/-- Modelled from the spec: the missing Argument Tokenizer. Empty input
yields zero tokens. -/
def tokenize (l : List Char) : List Argument :=
  tokenizeFuel (l.length + 1) l

/-- Concatenation of prefix + text + suffix over a token list. -/
def detokenize (args : List Argument) : List Char :=
  args.foldr (fun a acc => a.pre ++ a.text ++ a.suffix ++ acc) []

theorem tokenizeFuel_roundtrip :
    ∀ (n : Nat) (l : List Char), l.length < n → detokenize (tokenizeFuel n l) = l := by
  intro n
  induction n with
  | zero => intro l hl; omega
  | succ n ih =>
    intro l hl
    rw [tokenizeFuel]
    cases h : l.dropWhile isSpace with
    | nil =>
      by_cases hn : l = []
      · simp [hn, detokenize]
      · have hall : l.takeWhile isSpace = l := by
          have := List.takeWhile_append_dropWhile isSpace l
          rw [h] at this
          simpa using this
        simp [hn, detokenize]
    | cons c cs =>
      have hsuf : (c :: cs).length ≤ l.length := by
        have hs : l.dropWhile isSpace <:+ l := List.dropWhile_suffix isSpace
        rw [h] at hs
        exact hs.length_le
      have hlen : ((readToken (c :: cs)).2).length ≤ cs.length := readToken_snd_length c cs
      have hih : detokenize (tokenizeFuel n ((readToken (c :: cs)).2)) =
          (readToken (c :: cs)).2 := by
        apply ih
        simp at hsuf
        omega
      simp only [detokenize, List.foldr_cons] at hih ⊢
      rw [hih]
      have hr : (readToken (c :: cs)).1 ++ (readToken (c :: cs)).2 = c :: cs :=
        readToken_append (c :: cs)
      have hlw : l.takeWhile isSpace ++ l.dropWhile isSpace = l :=
        List.takeWhile_append_dropWhile isSpace l
      rw [h] at hlw
      simp only [List.append_nil, List.nil_append, List.append_assoc]
      rw [hr, hlw]

/-- Claim C4: for every input, concatenating prefix + text + suffix of
each Argument produced by the tokenizer, in token order, reconstructs the
original input exactly. -/
theorem tokenize_roundtrip : ∀ l : List Char, detokenize (tokenize l) = l := by
  intro l
  exact tokenizeFuel_roundtrip (l.length + 1) l (Nat.lt_succ_self _)

/-- Modelled from the spec: a typed parameter value produced by the
missing type-converter registry (string / number / boolean values). -/
inductive Value where
  | str (s : String)
  | num (n : Int)
  | bool (b : Bool)
deriving DecidableEq, Repr

/-- Modelled from the spec: the result of applying a Parameter's type
converter to an Argument (spec section 3): a typed value (or none for
undefined), a status, and an optional human-readable message. -/
structure Conversion where
  value : Option Value
  status : Status
  message : String
deriving DecidableEq, Repr

/-- Modelled from the spec: the capability-tagged converter type of a
parameter (string / number / selection / boolean), from the missing
type registry. -/
inductive ParamType where
  | str
  | num
  | bool
  | sel (options : List String)
deriving DecidableEq, Repr

/-- Modelled from the spec: a declared parameter of a command (spec
section 3), as used by the missing command registry. -/
structure Param where
  name : String
  type : ParamType
  isDataRequired : Bool
  isPositionalAllowed : Bool
  defaultValue : Option Value
deriving DecidableEq, Repr

/-- Modelled from the spec: a registered command (spec section 3). -/
structure Command where
  name : String
  params : List Param
deriving DecidableEq, Repr

def parseNatDigits (cs : List Char) : Option Nat :=
  if cs ≠ [] ∧ cs.all Char.isDigit then
    some (cs.foldl (fun acc c => acc * 10 + (c.toNat - 48)) 0)
  else none

def parseNum (cs : List Char) : Option Int :=
  match cs with
  | '-' :: rest => (parseNatDigits rest).map (fun n => -(n : Int))
  | _ => (parseNatDigits cs).map Int.ofNat

/-- Modelled from the spec: the missing per-type converters (spec
sections 4.3 and 7): ERROR carries a message explaining why; VALID or
INCOMPLETE depend on whether the token fully matches the type domain
(a valid numeric or selection prefix is INCOMPLETE, not ERROR). -/
def convert : ParamType → List Char → Conversion
  | .str, cs => ⟨some (.str (String.mk cs)), .VALID, ""⟩
  | .num, cs =>
    match parseNum cs with
    | some n => ⟨some (.num n), .VALID, ""⟩
    | none =>
      if cs = [] ∨ cs = ['-'] then ⟨none, .INCOMPLETE, ""⟩
      else ⟨none, .ERROR, "cannot convert to a number"⟩
  | .bool, cs =>
    if cs = "true".toList then ⟨some (.bool true), .VALID, ""⟩
    else if cs = "false".toList then ⟨some (.bool false), .VALID, ""⟩
    else if cs.isPrefixOf "true".toList ∨ cs.isPrefixOf "false".toList then
      ⟨none, .INCOMPLETE, ""⟩
    else ⟨none, .ERROR, "cannot convert to a boolean"⟩
  | .sel options, cs =>
    if String.mk cs ∈ options then ⟨some (.str (String.mk cs)), .VALID, ""⟩
    else if options.any (fun o => cs.isPrefixOf o.toList) then ⟨none, .INCOMPLETE, ""⟩
    else ⟨none, .ERROR, "value is not one of the selection options"⟩

/-- Modelled from the spec: the conversion for a parameter with no
matching token (spec section 4.3): required gives INCOMPLETE with an
empty value, optional gives VALID with the default value. -/
def noArgConversion (p : Param) : Conversion :=
  if p.isDataRequired then ⟨none, .INCOMPLETE, ""⟩
  else ⟨p.defaultValue, .VALID, ""⟩

/-- Modelled from the spec: an Assignment of the missing cli core pairs
one Parameter with its current matched token (if any) and Conversion. -/
structure Assignment where
  param : Param
  arg : Option (List Char)
  conversion : Conversion
deriving DecidableEq, Repr

/-- Modelled from the spec: split the token texts following the command
name into named bindings (`--flag value` or `--flag=value`, spec section
4.2) and the remaining positional pool. -/
def namedSplit : List (List Char) → List (String × List Char) × List (List Char)
  | [] => ([], [])
  | t :: ts =>
    if t.take 2 = ['-', '-'] then
      if (t.drop 2).contains '=' then
        ((String.mk ((t.drop 2).takeWhile (fun c => c != '=')),
          ((t.drop 2).dropWhile (fun c => c != '=')).drop 1) :: (namedSplit ts).1,
         (namedSplit ts).2)
      else
        match ts with
        | v :: ts2 => ((String.mk (t.drop 2), v) :: (namedSplit ts2).1, (namedSplit ts2).2)
        | [] => ([(String.mk (t.drop 2), [])], [])
    else
      ((namedSplit ts).1, t :: (namedSplit ts).2)

/-- Modelled from the spec: the missing Assignment Engine (spec section
4.3): for each parameter, named lookup first, else the next unconsumed
positional token, else the no-argument conversion. -/
def assignParams : List Param → List (String × List Char) → List (List Char) → List Assignment
  | [], _, _ => []
  | p :: ps, named, pos =>
    match List.lookup p.name named with
    | some v => ⟨p, some v, convert p.type v⟩ :: assignParams ps named pos
    | none =>
      if p.isPositionalAllowed then
        match pos with
        | t :: ts => ⟨p, some t, convert p.type t⟩ :: assignParams ps named ts
        | [] => ⟨p, none, noArgConversion p⟩ :: assignParams ps named []
      else ⟨p, none, noArgConversion p⟩ :: assignParams ps named pos

/-- Modelled from the spec: the CommandAssignment binding the command
name itself (spec section 3). -/
structure CommandAssignment where
  value : Option Command
  status : Status
deriving DecidableEq, Repr

/-- Modelled from the spec: resolve a typed command name against the
registry (spec section 4.4): exact match is VALID; a name that is a
prefix of at least one registered command is INCOMPLETE; otherwise
ERROR. -/
def resolveCommand (registry : List Command) (nm : String) : CommandAssignment :=
  match registry.find? (fun c => c.name == nm) with
  | some c => ⟨some c, .VALID⟩
  | none =>
    if registry.any (fun c => nm.isPrefixOf c.name) then ⟨none, .INCOMPLETE⟩
    else ⟨none, .ERROR⟩

/-- Modelled from the spec: the Requisition aggregate (spec section 3):
the CommandAssignment plus the ordered parameter Assignments of the
currently resolved command. -/
structure Requisition where
  commandAssignment : CommandAssignment
  assignments : List Assignment
deriving DecidableEq, Repr

/-- Modelled from the spec: Requisition.update of the missing cli core
(spec section 4.4): re-tokenize, re-resolve the command from the first
token, and re-run the Assignment Engine on the remaining tokens. An
unresolved command has zero parameter Assignments. -/
def Requisition.update (registry : List Command) (input : List Char) : Requisition :=
  match tokenize input with
  | [] => ⟨⟨none, .INCOMPLETE⟩, []⟩
  | cmdTok :: rest =>
    match resolveCommand registry (String.mk cmdTok.text) with
    | ⟨some c, st⟩ =>
      ⟨⟨some c, st⟩,
       assignParams c.params (namedSplit (rest.map Argument.text)).1
         (namedSplit (rest.map Argument.text)).2⟩
    | ⟨none, st⟩ => ⟨⟨none, st⟩, []⟩

/-- The elements of Requisition.getAssignments: either the leading
CommandAssignment or a parameter Assignment. -/
inductive AnyAssignment where
  | cmd (ca : CommandAssignment)
  | par (a : Assignment)
deriving DecidableEq, Repr

/-- Modelled from the spec: Requisition.getAssignments (spec section 6):
the ordered Assignments, preceded by the CommandAssignment when
includeCommand is true. -/
def Requisition.getAssignments (r : Requisition) (includeCommand : Bool) : List AnyAssignment :=
  (if includeCommand then [AnyAssignment.cmd r.commandAssignment] else []) ++
    r.assignments.map AnyAssignment.par

/-- The declared parameters of the resolved command, if any. -/
def resolvedParams (r : Requisition) : List Param :=
  match r.commandAssignment.value with
  | some c => c.params
  | none => []

theorem assignParams_map_param :
    ∀ (ps : List Param) (named : List (String × List Char)) (pos : List (List Char)),
      (assignParams ps named pos).map Assignment.param = ps := by
  intro ps
  induction ps with
  | nil => intro named pos; rfl
  | cons p ps ih =>
    intro named pos
    cases h : List.lookup p.name named with
    | some v => simp [assignParams, h, ih]
    | none =>
      cases hp : p.isPositionalAllowed
      · simp [assignParams, h, hp, ih]
      · cases pos <;> simp [assignParams, h, hp, ih]

/-- Claim C1: for every registry and input, update then getAssignments
with includeCommand gives the CommandAssignment first, followed by
exactly one Assignment per declared parameter of the resolved command in
declaration order. -/
theorem update_getAssignments_structure :
    ∀ (registry : List Command) (input : List Char),
      (Requisition.update registry input).getAssignments true =
        AnyAssignment.cmd (Requisition.update registry input).commandAssignment ::
          ((Requisition.update registry input).assignments.map AnyAssignment.par) ∧
      (Requisition.update registry input).assignments.map Assignment.param =
        resolvedParams (Requisition.update registry input) := by
  intro registry input
  refine ⟨by simp [Requisition.getAssignments], ?_⟩
  unfold Requisition.update
  cases h : tokenize input with
  | nil => simp [resolvedParams]
  | cons t rest =>
    rcases hr : resolveCommand registry (String.mk t.text) with ⟨v, st⟩
    cases v with
    | some c => simp [hr, resolvedParams, assignParams_map_param]
    | none => simp [hr, resolvedParams]

/-- Modelled from the spec: the required positional parameter `msg` of
the tslong scenario (spec section 8), from the missing mock command
definitions. -/
def msgParam : Param := ⟨"msg", .str, true, true, none⟩

def numParam : Param := ⟨"num", .num, false, false, none⟩

def selParam : Param := ⟨"sel", .sel ["space1", "space2"], false, false, none⟩

def boolParam : Param := ⟨"bool", .bool, false, false, none⟩

def bool2Param : Param := ⟨"bool2", .bool, false, false, none⟩

def sel2Param : Param := ⟨"sel2", .sel ["perl", "python"], false, false, none⟩

def num2Param : Param := ⟨"num2", .num, false, false, none⟩

/-- Modelled from the spec: the tslong command of the tslong scenario
(spec section 8 and testMenu.js): required `msg`, optional `num`, `sel`,
`bool`, `bool2`, `sel2`, `num2`. -/
def tslong : Command :=
  ⟨"tslong", [msgParam, numParam, selParam, boolParam, bool2Param, sel2Param, num2Param]⟩

/-- Claim C2: updating with input "tslong" yields a VALID
CommandAssignment holding tslong, an INCOMPLETE `msg` Assignment with
undefined value, and VALID Assignments with undefined value for every
optional parameter. -/
theorem tslong_options_scenario :
    (Requisition.update [tslong] ("tslong".toList)).commandAssignment =
        ⟨some tslong, .VALID⟩ ∧
      (Requisition.update [tslong] ("tslong".toList)).assignments.map
          (fun a => (a.param.name, a.conversion.value, a.conversion.status)) =
        [("msg", none, .INCOMPLETE), ("num", none, .VALID), ("sel", none, .VALID),
         ("bool", none, .VALID), ("bool2", none, .VALID), ("sel2", none, .VALID),
         ("num2", none, .VALID)] := by
  constructor <;> decide

/-- Modelled from the spec: positional parameter `a` of the
named-before-positional scenario (spec section 8). -/
def aParam : Param := ⟨"a", .str, true, true, none⟩

/-- Modelled from the spec: parameter `b` of the named-before-positional
scenario: positional, but may also be given as the named argument --b. -/
def bParam : Param := ⟨"b", .str, true, true, none⟩

/-- Modelled from the spec: the command `foo <a> <b> [--b val]` of the
named-before-positional scenario (spec section 8). -/
def fooCmd : Command := ⟨"foo", [aParam, bParam]⟩

/-- Claim C3: a named binding for a parameter always takes precedence
over positional consumption, wherever the named token appears; in
particular `foo x --b y` binds b to y and a to x. -/
theorem named_wins_over_positional :
    (∀ (ps : List Param) (named : List (String × List Char)) (pos : List (List Char))
        (a : Assignment) (v : List Char),
        a ∈ assignParams ps named pos →
        List.lookup a.param.name named = some v →
        a.arg = some v ∧ a.conversion = convert a.param.type v) ∧
      (Requisition.update [fooCmd] ("foo x --b y".toList)).assignments.map
          (fun a => (a.param.name, a.arg, a.conversion.status)) =
        [("a", some ['x'], .VALID), ("b", some ['y'], .VALID)] := by
  constructor
  · intro ps
    induction ps with
    | nil => intro named pos a v ha hv; simp [assignParams] at ha
    | cons p ps ih =>
      intro named pos a v ha hv
      cases h : List.lookup p.name named with
      | some w =>
        simp [assignParams, h] at ha
        rcases ha with rfl | ha
        · simp at hv
          rw [h] at hv
          cases hv
          exact ⟨rfl, rfl⟩
        · exact ih named pos a v ha hv
      | none =>
        cases hp : p.isPositionalAllowed
        · simp [assignParams, h, hp] at ha
          rcases ha with rfl | ha
          · simp at hv
            rw [h] at hv
            cases hv
          · exact ih named pos a v ha hv
        · cases pos with
          | nil =>
            simp [assignParams, h, hp] at ha
            rcases ha with rfl | ha
            · simp at hv
              rw [h] at hv
              cases hv
            · exact ih named [] a v ha hv
          | cons t ts =>
            simp [assignParams, h, hp] at ha
            rcases ha with rfl | ha
            · simp at hv
              rw [h] at hv
              cases hv
            · exact ih named ts a v ha hv
  · decide

theorem named_wins_over_positional_witness :
    (⟨bParam, some ['y'], convert bParam.type ['y']⟩ : Assignment).arg = some ['y'] ∧
      (⟨bParam, some ['y'], convert bParam.type ['y']⟩ : Assignment).conversion =
        convert (⟨bParam, some ['y'], convert bParam.type ['y']⟩ : Assignment).param.type ['y'] :=
  named_wins_over_positional.1 [bParam] [("b", ['y'])] []
    ⟨bParam, some ['y'], convert bParam.type ['y']⟩ ['y'] (by decide) (by decide)

/-- Modelled from the spec: the number of per-Assignment change events
one update fires, given the previous Requisition state (spec section
4.4): an Assignment fires iff its Conversion differs from its previous
one by value or status. -/
def countChanges (old new : Requisition) : Nat :=
  (if old.commandAssignment = new.commandAssignment then 0 else 1) +
    (List.zip old.assignments new.assignments).countP
      (fun q => decide (q.1.conversion ≠ q.2.conversion))

/-- Modelled from the spec: update together with its change events,
relative to the previous Requisition state. -/
def updateWithEvents (registry : List Command) (prev : Requisition) (input : List Char) :
    Requisition × Nat :=
  (Requisition.update registry input,
   countChanges prev (Requisition.update registry input))

theorem countP_conv_zip_self :
    ∀ l : List Assignment,
      (List.zip l l).countP (fun q => decide (q.1.conversion ≠ q.2.conversion)) = 0 := by
  intro l
  induction l with
  | nil => rfl
  | cons a l ih =>
    rw [List.zip_cons_cons, List.countP_cons, ih]
    simp

/-- Claim C5: calling update twice with the same text is idempotent: the
second call returns the same Requisition (same value and status for
every Assignment, same token-to-parameter matching) and fires zero
Assignment change events. -/
theorem update_idempotent_no_events :
    ∀ (registry : List Command) (input : List Char),
      updateWithEvents registry (Requisition.update registry input) input =
        (Requisition.update registry input, 0) := by
  intro registry input
  unfold updateWithEvents countChanges
  rw [countP_conv_zip_self]
  simp

/-- Modelled from the spec: the failure values of Requisition.exec (spec
sections 6 and 7): NotReady when the Requisition is not VALID, a
distinct CommandExecutionError when the command handler itself fails. -/
inductive ExecError where
  | notReady
  | commandExecutionError (msg : String)
deriving DecidableEq, Repr

/-- Modelled from the spec: the VALID Requisition state (spec section
4.4): command resolved and VALID, and every Assignment VALID. -/
def Requisition.isValid (r : Requisition) : Bool :=
  r.commandAssignment.value.isSome &&
    decide (r.commandAssignment.status = .VALID) &&
    r.assignments.all (fun a => decide (a.conversion.status = .VALID))

/-- Modelled from the spec: Requisition.exec (spec sections 4.4 and 6):
permitted only from VALID; runs the resolved command's handler on the
assembled typed argument values; a handler failure is reported as a
CommandExecutionError and leaves the Requisition itself unchanged. -/
def Requisition.exec (r : Requisition)
    (run : String → List (Option Value) → Except String Value) :
    Except ExecError Value × Requisition :=
  match r.commandAssignment.value with
  | some c =>
    if r.isValid then
      match run c.name (r.assignments.map (fun a => a.conversion.value)) with
      | .ok v => (.ok v, r)
      | .error m => (.error (.commandExecutionError m), r)
    else (.error .notReady, r)
  | none => (.error .notReady, r)

/-- Claim C6: exec fails with NotReady whenever the Requisition is not
VALID; when it is VALID and the handler fails, exec returns a distinct
CommandExecutionError and the Requisition itself is unchanged and still
VALID. -/
theorem exec_error_handling :
    ∀ (r : Requisition) (run : String → List (Option Value) → Except String Value),
      (r.exec run).2 = r ∧
      (r.isValid = false → (r.exec run).1 = Except.error ExecError.notReady) ∧
      (∀ c m, r.commandAssignment.value = some c → r.isValid = true →
        run c.name (r.assignments.map (fun a => a.conversion.value)) = Except.error m →
        (r.exec run).1 = Except.error (ExecError.commandExecutionError m) ∧
        (r.exec run).2.isValid = true) := by
  intro r run
  refine ⟨?_, ?_, ?_⟩
  · unfold Requisition.exec
    cases hv : r.commandAssignment.value with
    | none => rfl
    | some c =>
      cases hval : r.isValid
      · simp
      · cases hrun : run c.name (r.assignments.map (fun a => a.conversion.value)) <;>
          simp [hrun]
  · intro hnv
    unfold Requisition.exec
    cases hv : r.commandAssignment.value with
    | none => rfl
    | some c => simp [hnv]
  · intro c m hc hvalid hrun
    unfold Requisition.exec
    simp [hc, hvalid, hrun]

def failRun : String → List (Option Value) → Except String Value :=
  fun _ _ => Except.error "boom"

theorem exec_error_handling_witness :
    ((Requisition.update [tslong] ("tslong hi".toList)).exec failRun).1 =
        Except.error (ExecError.commandExecutionError "boom") ∧
      ((Requisition.update [tslong] ("tslong hi".toList)).exec failRun).2.isValid = true :=
  (exec_error_handling (Requisition.update [tslong] ("tslong hi".toList)) failRun).2.2
    tslong "boom" (by decide) (by decide) (by rfl)

/-- Modelled from the spec: a Requisition together with the
monotonically increasing update-sequence number used to key deferred
conversion results (spec section 9 design note). -/
structure AsyncReq where
  current : Requisition
  seq : Nat
deriving DecidableEq, Repr

/-- Modelled from the spec: an update in the sequence-numbered model
(spec sections 5 and 9): it installs the freshly parsed Requisition,
bumps the sequence number and hands that number out as the ticket for
any deferred conversions it starts. -/
def updateSeq (registry : List Command) (s : AsyncReq) (input : List Char) : AsyncReq × Nat :=
  (⟨Requisition.update registry input, s.seq + 1⟩, s.seq + 1)

/-- Modelled from the spec: install a settled conversion into the named
parameter's Assignment. -/
def setConversionAt (r : Requisition) (nm : String) (c : Conversion) : Requisition :=
  ⟨r.commandAssignment,
   r.assignments.map (fun a => if a.param.name = nm then ⟨a.param, a.arg, c⟩ else a)⟩

/-- Modelled from the spec: a deferred conversion result settling (spec
section 5): it is applied only if its ticket equals the current
sequence number, otherwise it is stale and discarded. -/
def applyDeferred (s : AsyncReq) (ticket : Nat) (nm : String) (c : Conversion) : AsyncReq :=
  if ticket = s.seq then ⟨setConversionAt s.current nm c, s.seq⟩ else s

/-- Claim C7: a stale deferred conversion result (its ticket differing
from the current sequence number) is discarded, never applied; in
particular after update(a) then update(b), the ticket issued by
update(a) is stale, and the observable state is the one produced by the
last update. -/
theorem deferred_last_update_wins :
    (∀ (s : AsyncReq) (ticket : Nat) (nm : String) (c : Conversion),
        ticket ≠ s.seq → applyDeferred s ticket nm c = s) ∧
      ∀ (registry : List Command) (s : AsyncReq) (a b : List Char) (nm : String)
        (c : Conversion),
        applyDeferred (updateSeq registry (updateSeq registry s a).1 b).1
            (updateSeq registry s a).2 nm c =
          (updateSeq registry (updateSeq registry s a).1 b).1 ∧
        (updateSeq registry (updateSeq registry s a).1 b).1.current =
          Requisition.update registry b := by
  constructor
  · intro s ticket nm c h
    unfold applyDeferred
    simp [h]
  · intro registry s a b nm c
    refine ⟨?_, rfl⟩
    unfold updateSeq applyDeferred
    simp

theorem deferred_last_update_wins_witness :
    applyDeferred ⟨⟨⟨none, .INCOMPLETE⟩, []⟩, 5⟩ 3 "msg" ⟨none, .VALID, ""⟩ =
      ⟨⟨⟨none, .INCOMPLETE⟩, []⟩, 5⟩ :=
  deferred_last_update_wins.1 ⟨⟨⟨none, .INCOMPLETE⟩, []⟩, 5⟩ 3 "msg" ⟨none, .VALID, ""⟩
    (by decide)

/-- Modelled from the spec: the arena+index model of Assignment identity
(spec section 9 design note): Assignments live in slots carrying a
stable identity; only reallocation hands out fresh identities. -/
structure ReqArena where
  nextId : Nat
  command : Option Command
  cmdAssign : CommandAssignment
  slots : List (Nat × Assignment)
deriving DecidableEq, Repr

/-- Modelled from the spec: update over the arena (spec sections 3 and
9): when the resolved command is unchanged the existing slots are
mutated in place, keeping their identities; when it changes the whole
array is reallocated with fresh identities. -/
def updateArena (registry : List Command) (st : ReqArena) (input : List Char) : ReqArena :=
  if st.command = (Requisition.update registry input).commandAssignment.value then
    ⟨st.nextId, st.command, (Requisition.update registry input).commandAssignment,
     List.zip (st.slots.map Prod.fst) (Requisition.update registry input).assignments⟩
  else
    ⟨st.nextId + (Requisition.update registry input).assignments.length,
     (Requisition.update registry input).commandAssignment.value,
     (Requisition.update registry input).commandAssignment,
     List.zip (List.range' st.nextId ((Requisition.update registry input).assignments.length))
       (Requisition.update registry input).assignments⟩

/-- Claim C8: across updates that keep the resolved command, every slot
keeps its identity while its Assignment content is updated in place, so
old references still denote the current Assignments; a change of
resolved command reallocates the slots with fresh identities. -/
theorem assignment_identity_stable :
    ∀ (registry : List Command) (st : ReqArena) (input : List Char),
      (st.command = (Requisition.update registry input).commandAssignment.value →
        st.slots.length = (Requisition.update registry input).assignments.length →
        (updateArena registry st input).slots.map Prod.fst = st.slots.map Prod.fst ∧
        (updateArena registry st input).slots.map Prod.snd =
          (Requisition.update registry input).assignments) ∧
      (st.command ≠ (Requisition.update registry input).commandAssignment.value →
        (updateArena registry st input).slots.map Prod.fst =
          List.range' st.nextId ((Requisition.update registry input).assignments.length) ∧
        (updateArena registry st input).slots.map Prod.snd =
          (Requisition.update registry input).assignments) := by
  intro registry st input
  constructor
  · intro hcmd hlen
    unfold updateArena
    rw [if_pos hcmd]
    constructor
    · apply List.map_fst_zip
      simp [hlen]
    · apply List.map_snd_zip
      simp [hlen]
  · intro hcmd
    unfold updateArena
    rw [if_neg hcmd]
    constructor
    · apply List.map_fst_zip
      simp
    · apply List.map_snd_zip
      simp

/-- The freshly allocated arena for an initial update. -/
def initArena (registry : List Command) (input : List Char) : ReqArena :=
  ⟨(Requisition.update registry input).assignments.length,
   (Requisition.update registry input).commandAssignment.value,
   (Requisition.update registry input).commandAssignment,
   List.zip (List.range' 0 ((Requisition.update registry input).assignments.length))
     (Requisition.update registry input).assignments⟩

theorem assignment_identity_stable_witness :
    (updateArena [tslong] (initArena [tslong] ("tslong".toList)) ("tslong x".toList)).slots.map
        Prod.fst =
      (initArena [tslong] ("tslong".toList)).slots.map Prod.fst ∧
      (updateArena [tslong] (initArena [tslong] ("tslong".toList)) ("tslong x".toList)).slots.map
          Prod.snd =
        (Requisition.update [tslong] ("tslong x".toList)).assignments :=
  (assignment_identity_stable [tslong] (initArena [tslong] ("tslong".toList))
      ("tslong x".toList)).1 (by decide) (by decide)

theorem convert_invariant :
    ∀ (t : ParamType) (cs : List Char),
      ((convert t cs).status = .ERROR → (convert t cs).message ≠ "") ∧
      ((convert t cs).status = .VALID → (convert t cs).value.isSome = true) := by
  intro t cs
  cases t with
  | str => simp [convert]
  | num =>
    cases h : parseNum cs with
    | some n => simp [convert, h]
    | none =>
      simp only [convert, h]
      split_ifs <;> simp
  | bool =>
    simp only [convert]
    split_ifs <;> simp
  | sel options =>
    simp only [convert]
    split_ifs <;> simp

theorem noArg_invariant :
    ∀ p : Param,
      ((noArgConversion p).status = .ERROR → (noArgConversion p).message ≠ "") ∧
      ((noArgConversion p).status = .VALID →
        (noArgConversion p).value.isSome = true ∨ p.isDataRequired = false) := by
  intro p
  cases hp : p.isDataRequired <;> simp [noArgConversion, hp]

theorem assignParams_conversion_shape :
    ∀ (ps : List Param) (named : List (String × List Char)) (pos : List (List Char))
      (a : Assignment),
      a ∈ assignParams ps named pos →
      (∃ v, a.conversion = convert a.param.type v) ∨ a.conversion = noArgConversion a.param := by
  intro ps
  induction ps with
  | nil => intro named pos a ha; simp [assignParams] at ha
  | cons p ps ih =>
    intro named pos a ha
    cases h : List.lookup p.name named with
    | some w =>
      simp [assignParams, h] at ha
      rcases ha with rfl | ha
      · exact Or.inl ⟨w, rfl⟩
      · exact ih named pos a ha
    | none =>
      cases hp : p.isPositionalAllowed
      · simp [assignParams, h, hp] at ha
        rcases ha with rfl | ha
        · exact Or.inr rfl
        · exact ih named pos a ha
      · cases pos with
        | nil =>
          simp [assignParams, h, hp] at ha
          rcases ha with rfl | ha
          · exact Or.inr rfl
          · exact ih named [] a ha
        | cons t ts =>
          simp [assignParams, h, hp] at ha
          rcases ha with rfl | ha
          · exact Or.inl ⟨t, rfl⟩
          · exact ih named ts a ha

/-- Claim C9: every Conversion carried by an Assignment produced by
update satisfies: status ERROR implies a non-empty message, and status
VALID implies the value is defined or the parameter is optional. -/
theorem conversion_invariant :
    ∀ (registry : List Command) (input : List Char) (a : Assignment),
      a ∈ (Requisition.update registry input).assignments →
      (a.conversion.status = .ERROR → a.conversion.message ≠ "") ∧
      (a.conversion.status = .VALID →
        a.conversion.value.isSome = true ∨ a.param.isDataRequired = false) := by
  intro registry input a ha
  have hshape : (∃ v, a.conversion = convert a.param.type v) ∨
      a.conversion = noArgConversion a.param := by
    unfold Requisition.update at ha
    cases h : tokenize input with
    | nil => rw [h] at ha; simp at ha
    | cons t rest =>
      rw [h] at ha
      rcases hr : resolveCommand registry (String.mk t.text) with ⟨v, st⟩
      cases v with
      | some c =>
        simp only [hr] at ha
        exact assignParams_conversion_shape c.params _ _ a ha
      | none => simp [hr] at ha
  rcases hshape with ⟨v, hv⟩ | hv
  · rw [hv]
    have h := convert_invariant a.param.type v
    exact ⟨h.1, fun hs => Or.inl (h.2 hs)⟩
  · rw [hv]
    exact noArg_invariant a.param

theorem conversion_invariant_witness :
    ((⟨msgParam, none, ⟨none, .INCOMPLETE, ""⟩⟩ : Assignment).conversion.status = .ERROR →
        (⟨msgParam, none, ⟨none, .INCOMPLETE, ""⟩⟩ : Assignment).conversion.message ≠ "") ∧
      ((⟨msgParam, none, ⟨none, .INCOMPLETE, ""⟩⟩ : Assignment).conversion.status = .VALID →
        (⟨msgParam, none, ⟨none, .INCOMPLETE, ""⟩⟩ :
            Assignment).conversion.value.isSome = true ∨
          (⟨msgParam, none, ⟨none, .INCOMPLETE, ""⟩⟩ :
            Assignment).param.isDataRequired = false) :=
  conversion_invariant [tslong] ("tslong".toList)
    ⟨msgParam, none, ⟨none, .INCOMPLETE, ""⟩⟩ (by decide)

/-- The observable state of an OutputTerminal (output_terminal.js): for
each output (by identity) the view allocated for it, the number of row
elements appended to the terminal element, and the next view identity. -/
structure TermState where
  views : List (Nat × Nat)
  children : Nat
  nextView : Nat
deriving DecidableEq, Repr

/-- OutputTerminal.prototype.onOutputCommandChange (output_terminal.js
lines 62-67) with the OutputView constructor (lines 82-104): if the
output has no view yet, allocate one, appending its rowin and rowout
rows (two children) to the terminal element; otherwise reuse the
existing view (OutputView.onChange only rewrites inside the view's own
rows). -/
def onOutputCommandChange (st : TermState) (outId : Nat) : TermState :=
  match st.views.lookup outId with
  | some _ => st
  | none => ⟨(outId, st.nextView) :: st.views, st.children + 2, st.nextView + 1⟩

/-- A sequence of output events processed by the terminal. -/
def processEvents (st : TermState) (evs : List Nat) : TermState :=
  evs.foldl onOutputCommandChange st

/-- The number of views the terminal holds for one output. -/
def viewCount (st : TermState) (outId : Nat) : Nat :=
  (st.views.filter (fun q => q.1 == outId)).length

theorem lookup_none_viewCount :
    ∀ (l : List (Nat × Nat)) (k : Nat),
      List.lookup k l = none → (l.filter (fun q => q.1 == k)).length = 0 := by
  intro l k h
  rw [List.lookup_eq_none_iff] at h
  rw [List.length_eq_zero, List.filter_eq_nil_iff]
  intro q hq
  have hne := h q hq
  simp at hne ⊢
  omega

theorem viewCount_step :
    ∀ (st : TermState) (ev outId : Nat),
      viewCount st outId ≤ 1 → viewCount (onOutputCommandChange st ev) outId ≤ 1 := by
  intro st ev outId hle
  unfold onOutputCommandChange
  cases h : st.views.lookup ev with
  | some v => exact hle
  | none =>
    by_cases he : ev = outId
    · subst he
      have h0 : viewCount st ev = 0 := lookup_none_viewCount st.views ev h
      unfold viewCount at h0 ⊢
      simp [List.filter_cons, h0]
    · have hq : (ev == outId) = false := by
        simp
        omega
      unfold viewCount at hle ⊢
      simp [List.filter_cons, hq]
      exact hle

/-- Claim C10: the OutputTerminal creates at most one OutputView per
output: the first event for an output allocates a view, appending
exactly one input row and one output row to the terminal element, and
every later event for the same output reuses that view. -/
theorem output_view_unique :
    ∀ (st : TermState) (outId : Nat) (evs : List Nat),
      (st.views.lookup outId = none →
        (onOutputCommandChange st outId).children = st.children + 2 ∧
        (onOutputCommandChange st outId).views.lookup outId = some st.nextView) ∧
      ((st.views.lookup outId).isSome = true → onOutputCommandChange st outId = st) ∧
      (viewCount st outId ≤ 1 → viewCount (processEvents st evs) outId ≤ 1) := by
  intro st outId evs
  refine ⟨?_, ?_, ?_⟩
  · intro h
    unfold onOutputCommandChange
    rw [h]
    exact ⟨rfl, by simp [List.lookup_cons]⟩
  · intro h
    unfold onOutputCommandChange
    cases hl : st.views.lookup outId with
    | some v => rfl
    | none => rw [hl] at h; simp at h
  · intro hle
    induction evs generalizing st with
    | nil => exact hle
    | cons e es ih =>
      unfold processEvents
      rw [List.foldl_cons]
      exact ih (onOutputCommandChange st e) (viewCount_step st e outId hle)

theorem output_view_unique_witness :
    (onOutputCommandChange ⟨[], 0, 0⟩ 5).children = (⟨[], 0, 0⟩ : TermState).children + 2 ∧
      (onOutputCommandChange ⟨[], 0, 0⟩ 5).views.lookup 5 =
        some (⟨[], 0, 0⟩ : TermState).nextView ∧
      viewCount (processEvents ⟨[], 0, 0⟩ [5, 5]) 5 ≤ 1 :=
  have h := output_view_unique ⟨[], 0, 0⟩ 5 [5, 5]
  ⟨(h.1 (by decide)).1, (h.1 (by decide)).2, h.2.2 (by decide)⟩
